import Mathlib

/-!
Verification of the `mem` package of joefriday (`src/mem/meminfo.go`).

The development shallowly embeds the two scanning paths of the package —
the one-shot `GetInfo` scanner and the per-line scanner inside
`DataTicker` — over byte buffers modelled as `List Char` (the inputs are
ASCII; a Go byte is one `Char`).  Machine integers are modelled as
`Nat`/`Int` with explicit wrap-around `% 2^64` where the Go code uses
`uint64`/`int` arithmetic.  The flatbuffers codec for the `Data` table is
generated code that is not part of the sources being verified; it is
modelled from the specification's codec contract (see `serializeInfo`).
-/

/-- The `Info` record of `src/mem/meminfo.go` (lines 34-46).  Go `int` and
`int64` are both 64-bit here; fields are modelled as unbounded `Int` with
explicit wrapping applied at the points where the code converts. -/
structure Info where
  timestamp : Int
  memTotal : Int
  memFree : Int
  memAvailable : Int
  buffers : Int
  cached : Int
  swapCached : Int
  active : Int
  inactive : Int
  swapTotal : Int
  swapFree : Int
  deriving DecidableEq, Repr

/-- An `Info` whose ten value fields are zero, with the given timestamp:
the state `f` that `GetInfo` (line 111-113) starts from, and likewise the
builder state of a `DataTicker` tick right after `DataAddTimestamp`. -/
def zeroInfo (t : Int) : Info :=
  ⟨t, 0, 0, 0, 0, 0, 0, 0, 0, 0, 0⟩

/-- Label byte-string `MemTotal` (line 92). -/
def memTotalL : List Char := "MemTotal".data

/-- Label byte-string `MemFree` (line 93). -/
def memFreeL : List Char := "MemFree".data

/-- Label byte-string `MemAvailable` (line 94). -/
def memAvailableL : List Char := "MemAvailable".data

/-- Label byte-string `Buffers` (line 95). -/
def buffersL : List Char := "Buffers".data

/-- Label byte-string `Cached` (line 96). -/
def cachedL : List Char := "Cached".data

/-- Label byte-string `SwapCached` (line 97). -/
def swapCachedL : List Char := "SwapCached".data

/-- Label byte-string `Active` (line 98). -/
def activeL : List Char := "Active".data

/-- Label byte-string `Inactive` (line 99). -/
def inactiveL : List Char := "Inactive".data

/-- Label byte-string `SwapTotal` (line 100). -/
def swapTotalL : List Char := "SwapTotal".data

/-- Label byte-string `SwapFree` (line 101). -/
def swapFreeL : List Char := "SwapFree".data

/-- The ten known labels, in the order of the `switch` in `GetInfo`
(lines 143-164), which is also the order of the `if` chain in
`DataTicker` (lines 273-312). -/
def knownLabels : List (List Char) :=
  [memTotalL, memFreeL, memAvailableL, buffersL, cachedL,
   swapCachedL, activeL, inactiveL, swapTotalL, swapFreeL]

/-- ASCII decimal digit test: `GetInfo`'s digit loop continues while
`¬(c > '9' ∨ c < '0')` (line 131), i.e. while `48 ≤ c ≤ 57`. -/
def isDigB (c : Char) : Bool :=
  decide (48 ≤ c.toNat) && decide (c.toNat ≤ 57)

/-- Modelled from the spec: `helpers.ParseUint` (external dependency of
`GetInfo`, line 136; its source is not under `src/`).  `GetInfo` only ever
passes it a maximal run of ASCII digits, on which the spec states that the
parse accumulates the decimal value, a zero-length run yielding value 0 and
never failing.  `uint64` multiply-add wraps modulo `2^64`. -/
def parseUintFold (ds : List Char) : Nat :=
  ds.foldl (fun n c => (n * 10 + (c.toNat - 48)) % (2 ^ 64)) 0

/-- Go's `int(v)` conversion of a `uint64` value `n < 2^64` to a signed
64-bit integer: reinterpretation of the bit pattern. -/
def goInt64 (n : Nat) : Int :=
  if n < 2 ^ 63 then (n : Int) else (n : Int) - 2 ^ 64

/-- The `switch` of `GetInfo` (lines 143-164): exact byte equality of the
scanned `name` against each label, writing the parsed value into the
matching field; unknown names fall through to no update. -/
def applyInfo (f : Info) (name : List Char) (v : Int) : Info :=
  if name = memTotalL then { f with memTotal := v }
  else if name = memFreeL then { f with memFree := v }
  else if name = memAvailableL then { f with memAvailable := v }
  else if name = buffersL then { f with buffers := v }
  else if name = cachedL then { f with cached := v }
  else if name = swapCachedL then { f with swapCached := v }
  else if name = activeL then { f with active := v }
  else if name = inactiveL then { f with inactive := v }
  else if name = swapTotalL then { f with swapTotal := v }
  else if name = swapFreeL then { f with swapFree := v }
  else f

/-- The scanning loop of `GetInfo` (lines 114-165), passed the remaining
buffer suffix `buf[p:]` instead of the index `p`.  One fuel unit is spent
per iteration; on certain degenerate buffers (for example a buffer whose
last `:` is followed by neither digits nor a newline) the Go loop does not
terminate, which here surfaces as fuel exhaustion (`none` with every fuel).

Per iteration: `bytes.IndexByte(buf[p:], ':')` finds the delimiter
(`< 0`, i.e. `':' ∉ buf`, breaks the loop, line 117-119); `name` is
everything before it (line 121); the space-skip loop (lines 123-128)
increments `i` once per inspected byte including the byte it breaks on, so
it lands on the first non-space after the colon — except that an empty
`buf[i+1:]` leaves `i` on the colon itself, and an all-space `buf[i+1:]`
leaves `i` on the final byte (a space); the digit loop (lines 130-135)
takes the maximal digit run; `helpers.ParseUint` converts it; the newline
skip (line 141) drops through the first `'\n'`, or (IndexByte `= -1`)
leaves `p = i`; finally the `switch` maps `name` (lines 143-164). -/
def getInfoScan : Nat → List Char → Info → Option Info
  | 0, _, _ => none
  | fuel + 1, buf, f =>
    if (':' : Char) ∈ buf then
      let key := buf.takeWhile (fun c => c != ':')
      let afterIncl := buf.drop key.length
      let afterColon := afterIncl.drop 1
      let sRest :=
        if afterColon = [] then afterIncl
        else if afterColon.dropWhile (fun c => c == ' ') = [] then [' ']
        else afterColon.dropWhile (fun c => c == ' ')
      let ds := sRest.takeWhile isDigB
      let rest2 := sRest.drop ds.length
      let v := goInt64 (parseUintFold ds)
      let restNext :=
        if ('\n' : Char) ∈ rest2 then (rest2.dropWhile (fun c => c != '\n')).drop 1
        else rest2
      getInfoScan fuel restNext (applyInfo f key v)
    else some f

/-- The sequence of `name`s the `GetInfo` loop matches against the label
table, with the same control flow as `getInfoScan`. -/
def getInfoNames : Nat → List Char → List (List Char)
  | 0, _ => []
  | fuel + 1, buf =>
    if (':' : Char) ∈ buf then
      let key := buf.takeWhile (fun c => c != ':')
      let afterIncl := buf.drop key.length
      let afterColon := afterIncl.drop 1
      let sRest :=
        if afterColon = [] then afterIncl
        else if afterColon.dropWhile (fun c => c == ' ') = [] then [' ']
        else afterColon.dropWhile (fun c => c == ' ')
      let ds := sRest.takeWhile isDigB
      let rest2 := sRest.drop ds.length
      let restNext :=
        if ('\n' : Char) ∈ rest2 then (rest2.dropWhile (fun c => c != '\n')).drop 1
        else rest2
      key :: getInfoNames fuel restNext
    else []

/-- The field of `Info` that `GetInfo`'s `switch` associates with a known
label (the one-shot label-to-field mapping); `0` for unknown labels. -/
def infoField (lab : List Char) (f : Info) : Int :=
  if lab = memTotalL then f.memTotal
  else if lab = memFreeL then f.memFree
  else if lab = memAvailableL then f.memAvailable
  else if lab = buffersL then f.buffers
  else if lab = cachedL then f.cached
  else if lab = swapCachedL then f.swapCached
  else if lab = activeL then f.active
  else if lab = inactiveL then f.inactive
  else if lab = swapTotalL then f.swapTotal
  else if lab = swapFreeL then f.swapFree
  else 0

/-- Go `strconv.Atoi` on an ASCII byte string (`DataTicker`, line 267):
optional sign, then at least one decimal digit and nothing else; values
outside the 64-bit signed range are a range error.  Any failure is `none`
(in the code, a non-nil `err`). -/
def atoi (s : List Char) : Option Int :=
  match s with
  | [] => none
  | c :: rest =>
    let neg := c = '-'
    let digs := if c = '-' ∨ c = '+' then rest else s
    if digs = [] then none
    else if digs.all isDigB then
      let n : Nat := digs.foldl (fun a d => a * 10 + (d.toNat - 48)) 0
      if neg then (if n ≤ 2 ^ 63 then some (-(n : Int)) else none)
      else (if n ≤ 2 ^ 63 - 1 then some (n : Int) else none)
    else none

/-- The `if` chain of `DataTicker` (lines 273-312) that maps the scanned
`name` to a `DataAdd*` builder call: exact string equality in the same
order as `GetInfo`'s switch, except that the `"Cached"` branch calls
`DataAddMemAvailable` (line 290), writing the MemAvailable slot.  The
builder's slots are modelled as the corresponding `Info` fields. -/
def tickerApply (f : Info) (name : List Char) (v : Int) : Info :=
  if name = memTotalL then { f with memTotal := v }
  else if name = memFreeL then { f with memFree := v }
  else if name = memAvailableL then { f with memAvailable := v }
  else if name = buffersL then { f with buffers := v }
  else if name = cachedL then { f with memAvailable := v }
  else if name = swapCachedL then { f with swapCached := v }
  else if name = activeL then { f with active := v }
  else if name = inactiveL then { f with inactive := v }
  else if name = swapTotalL then { f with swapTotal := v }
  else if name = swapFreeL then { f with swapFree := v }
  else f

/-- The mutable state a `DataTicker` tick threads through its line loop:
the builder slots (`f`), the scratch slice `val`, the position `pos`, and
the number of errors sent on `errCh` so far.  `val` and `pos` are declared
outside the loop (lines 195-200) and are not reset between lines. -/
structure TickSt where
  f : Info
  val : List Char
  pos : Nat
  errs : Nat
  deriving DecidableEq, Repr

/-- The state at the start of a tick's line loop: builder holding only the
timestamp, empty `val`, `pos = 0`, no errors yet. -/
def initTick (t : Int) : TickSt :=
  ⟨zeroInfo t, [], 0, 0⟩

/-- First index at which a byte other than `' '` occurs — the space-skip
loop of `DataTicker` (lines 252-257), which sets `pos += i` only when it
breaks on a non-space; if it never breaks, `pos` is left unchanged
(the `none` case). -/
def idxOfNonSpace : List Char → Option Nat
  | [] => none
  | c :: t => if c = ' ' then (idxOfNonSpace t).map (· + 1) else some 0

/-- One iteration of `DataTicker`'s per-line body (lines 241-312) on the
line returned by `ReadSlice('\n')`:

* key loop (242-248): every byte before the first `':'` is appended to
  `val`; on `':'`, `pos` is set past it; with no `':'` the whole line goes
  into `val` and `pos` keeps its stale value — if that stale `pos`
  exceeds the line length, `line[pos:]` panics (`none` here);
* `name := string(val)` then `val = val[:0]` (249-250);
* space skip (252-257) via `idxOfNonSpace`;
* value grab (260-265): bytes until `' '` or `'\r'` are appended to `val`;
* `strconv.Atoi` (267): on error, send on `errCh` and `continue` — `val`
  is NOT cleared in this path; on success `val` is cleared (272) and the
  `if` chain maps `name` (273-312). -/
def processTickerLine (st : TickSt) (line : List Char) : Option TickSt :=
  let key := line.takeWhile (fun c => c != ':')
  let name := st.val ++ key
  let pos1 := if (':' : Char) ∈ line then key.length + 1 else st.pos
  if pos1 > line.length then none
  else
    let pos2 :=
      match idxOfNonSpace (line.drop pos1) with
      | some i => pos1 + i
      | none => pos1
    let tok := (line.drop pos2).takeWhile (fun c => c != ' ' && c != '\r')
    match atoi tok with
    | none => some ⟨st.f, tok, pos2, st.errs + 1⟩
    | some v => some ⟨tickerApply st.f name v, [], pos2, st.errs⟩

/-- The line loop of one `DataTicker` tick (lines 225-313) over the list
of `'\n'`-terminated lines `ReadSlice` yields (a final unterminated chunk
is returned together with `io.EOF` and discarded by the `err != nil`
check, so it does not appear in the list).  `l` counts lines read so far:
the loop breaks before reading a 17th line (226-228) and `continue`s —
before any parsing — on lines 9 through 14 (`l > 8 && l < 15`, 238-240). -/
def tickerLoop : Nat → List (List Char) → TickSt → Option TickSt
  | _, [], st => some st
  | l, line :: rest, st =>
    if l = 16 then some st
    else if 8 < l + 1 ∧ l + 1 < 15 then tickerLoop (l + 1) rest st
    else
      match processTickerLine st line with
      | none => none
      | some st' => tickerLoop (l + 1) rest st'

/-- Reference line processor with neither the 16-line cutoff nor the
9-14 skip: every line of the list is processed in order.  Used to state
which lines the real loop actually consumes. -/
def tickerAll : List (List Char) → TickSt → Option TickSt
  | [], st => some st
  | line :: rest, st =>
    match processTickerLine st line with
    | none => none
    | some st' => tickerAll rest st'

/-- The lines a tick actually processes: lines 1-8, 15 and 16 (1-based)
of the sample. -/
def selectTicker (ls : List (List Char)) : List (List Char) :=
  ls.take 8 ++ (ls.take 16).drop 14

/-- Generalization of `selectTicker` to a loop entered with `l` lines
already counted. -/
def selFrom (l : Nat) (ls : List (List Char)) : List (List Char) :=
  ls.take (8 - l) ++ (ls.take (16 - l)).drop (14 - l)

/-- The name `DataTicker` computes for a line (line 249): the stale
content of `val` followed by the bytes of the line before its first
colon. -/
def tickerKey (val line : List Char) : List Char :=
  val ++ line.takeWhile (fun c => c != ':')

/-- A `Label: value` line as read by the ticker: label, colon, `sp`
spaces, a value token, trailing bytes, newline. -/
def tickerLineOf (lab : List Char) (sp : Nat) (tok tail : List Char) : List Char :=
  lab ++ [':'] ++ List.replicate sp ' ' ++ tok ++ tail ++ ['\n']

/-- The builder slot that `DataTicker`'s `if` chain associates with a
known label (the ticker label-to-field mapping): note `"Cached"` reads
the MemAvailable slot, mirroring line 290; `0` for unknown labels. -/
def tickerField (lab : List Char) (f : Info) : Int :=
  if lab = memTotalL then f.memTotal
  else if lab = memFreeL then f.memFree
  else if lab = memAvailableL then f.memAvailable
  else if lab = buffersL then f.buffers
  else if lab = cachedL then f.memAvailable
  else if lab = swapCachedL then f.swapCached
  else if lab = activeL then f.active
  else if lab = inactiveL then f.inactive
  else if lab = swapTotalL then f.swapTotal
  else if lab = swapFreeL then f.swapFree
  else 0

/-- Little-endian 8-byte encoding of a signed 64-bit value: the two's
complement bit pattern `x % 2^64`, split into bytes. -/
def toLE8 (x : Int) : List Nat :=
  let n := (x % (2 ^ 64 : Int)).toNat
  [n % 256, n / 256 % 256, n / 256 ^ 2 % 256, n / 256 ^ 3 % 256,
   n / 256 ^ 4 % 256, n / 256 ^ 5 % 256, n / 256 ^ 6 % 256, n / 256 ^ 7 % 256]

/-- Little-endian decoding of 8 bytes back to a signed 64-bit value. -/
def fromLE8 (bs : List Nat) : Int :=
  let n : Nat := bs.foldr (fun b acc => b + 256 * acc) 0
  if n < 2 ^ 63 then (n : Int) else (n : Int) - 2 ^ 64

/-- Modelled from the spec: `Info.Serialize` (lines 49-65) drives the
flatbuffers-generated builder calls `DataStart`/`DataAdd*`/`DataEnd` for
the `Data` table; that generated code is part of the repository but not
under `src/`.  Per the spec the codec is a flat, little-endian,
schema-stable binary encoding of the record satisfying
`decode(encode s) = s` field for field.  We model it as the fields'
64-bit little-endian patterns in the order of the `DataAdd*` calls. -/
def serializeInfo (i : Info) : List Nat :=
  toLE8 i.timestamp ++ toLE8 i.memTotal ++ toLE8 i.memFree ++
  toLE8 i.memAvailable ++ toLE8 i.buffers ++ toLE8 i.cached ++
  toLE8 i.swapCached ++ toLE8 i.active ++ toLE8 i.inactive ++
  toLE8 i.swapTotal ++ toLE8 i.swapFree

/-- Modelled from the spec: `Deserialize` (lines 70-85) reads each field
back out of the buffer via the generated `GetRootAsData` accessors;
inverse of `serializeInfo` on its field layout. -/
def deserializeInfo (p : List Nat) : Info :=
  let p1 := p.drop 8
  let p2 := p1.drop 8
  let p3 := p2.drop 8
  let p4 := p3.drop 8
  let p5 := p4.drop 8
  let p6 := p5.drop 8
  let p7 := p6.drop 8
  let p8 := p7.drop 8
  let p9 := p8.drop 8
  let p10 := p9.drop 8
  { timestamp := fromLE8 (p.take 8)
    memTotal := fromLE8 (p1.take 8)
    memFree := fromLE8 (p2.take 8)
    memAvailable := fromLE8 (p3.take 8)
    buffers := fromLE8 (p4.take 8)
    cached := fromLE8 (p5.take 8)
    swapCached := fromLE8 (p6.take 8)
    active := fromLE8 (p7.take 8)
    inactive := fromLE8 (p8.take 8)
    swapTotal := fromLE8 (p9.take 8)
    swapFree := fromLE8 (p10.take 8) }

/-- All fields of the record are representable in a signed 64-bit integer
— automatically true of every `Info` the Go code builds, where each field
is a 64-bit machine word. -/
def InfoInRange (i : Info) : Prop :=
  (-(2 ^ 63) ≤ i.timestamp ∧ i.timestamp < 2 ^ 63) ∧
  (-(2 ^ 63) ≤ i.memTotal ∧ i.memTotal < 2 ^ 63) ∧
  (-(2 ^ 63) ≤ i.memFree ∧ i.memFree < 2 ^ 63) ∧
  (-(2 ^ 63) ≤ i.memAvailable ∧ i.memAvailable < 2 ^ 63) ∧
  (-(2 ^ 63) ≤ i.buffers ∧ i.buffers < 2 ^ 63) ∧
  (-(2 ^ 63) ≤ i.cached ∧ i.cached < 2 ^ 63) ∧
  (-(2 ^ 63) ≤ i.swapCached ∧ i.swapCached < 2 ^ 63) ∧
  (-(2 ^ 63) ≤ i.active ∧ i.active < 2 ^ 63) ∧
  (-(2 ^ 63) ≤ i.inactive ∧ i.inactive < 2 ^ 63) ∧
  (-(2 ^ 63) ≤ i.swapTotal ∧ i.swapTotal < 2 ^ 63) ∧
  (-(2 ^ 63) ≤ i.swapFree ∧ i.swapFree < 2 ^ 63)

/-- A well-formed `Label: value` line, as a template: `label`, then
`':'`, then `sp` spaces, then a digit run `ds`, then trailing bytes
`junk` (such as `" kB"`), then `'\n'`. -/
structure LineSpec where
  label : List Char
  sp : Nat
  ds : List Char
  junk : List Char
  deriving DecidableEq, Repr

/-- Bytes of a `LineSpec`. -/
def LineSpec.render (L : LineSpec) : List Char :=
  L.label ++ [':'] ++ List.replicate L.sp ' ' ++ L.ds ++ L.junk ++ ['\n']

/-- `true` iff `c` does not occur in the list. -/
def noChar (c : Char) : List Char → Bool
  | [] => true
  | a :: t => (a != c) && noChar c t

/-- Head test helper: `true` when the list is empty or its head
satisfies `p`. -/
def headOk (p : Char → Bool) : List Char → Bool
  | [] => true
  | c :: _ => p c

/-- Well-formedness of a `LineSpec`: no colon in the label, `ds` all
digits, the byte after the digit run (the head of `junk`, or the
terminating newline) not a digit — and, when the digit run is empty, not
a space either — so the scanners parse exactly `label` and `ds` out of
the rendered line. -/
def LineSpec.okB (L : LineSpec) : Bool :=
  noChar ':' L.label && L.ds.all isDigB &&
  headOk (fun c => !(isDigB c)) L.junk &&
  (!(L.ds.isEmpty) || headOk (fun c => c != ' ') L.junk) && noChar '\n' L.junk

/-- The `Info` update a well-formed line causes in `GetInfo`. -/
def lineStep (f : Info) (L : LineSpec) : Info :=
  applyInfo f L.label (goInt64 (parseUintFold L.ds))

/-- Byte buffer of a list of well-formed lines. -/
def renderAll (ls : List LineSpec) : List Char :=
  (ls.map LineSpec.render).flatten

/-- Outcome of one `ticker.C` tick of `DataTicker`: either the
`os.Open` fails (line 217-221: one error is sent, then `continue`), or
the tick completes, having sent `errs` parse errors on `errCh` during the
line loop, and ends with the send of the serialized record (line 317). -/
inductive TickOutcome where
  | openFail : TickOutcome
  | ok : Nat → TickOutcome
  deriving DecidableEq, Repr

/-- One resolution of `DataTicker`'s `select` (lines 211-320): either the
`done` channel is ready (close of, or send on, `done`), or the ticker
fires and the tick body runs with the given outcome. -/
inductive TickChoice where
  | done : TickChoice
  | tick : TickOutcome → TickChoice
  deriving DecidableEq, Repr

/-- Externally observable events of `DataTicker`. -/
inductive TickerEv where
  | recvDone : TickerEv
  | errSend : TickerEv
  | outSend : TickerEv
  | closeOut : TickerEv
  | stopTicker : TickerEv
  deriving DecidableEq, Repr

/-- Events of one tick body. -/
def tickEvents : TickOutcome → List TickerEv
  | .openFail => [.errSend]
  | .ok errs => List.replicate errs .errSend ++ [.outSend]

/-- The event trace of `DataTicker` under a schedule of `select`
resolutions.  Receiving on `done` returns from the function (line
212-213), which runs the deferred calls in LIFO order: `close(outCh)`
(line 193) then `ticker.Stop()` (line 192); nothing after the `.done`
choice is executed.  If the schedule ends without `.done` the loop is
still running and no close has happened. -/
def runTicker : List TickChoice → List TickerEv
  | [] => []
  | .done :: _ => [.recvDone, .closeOut, .stopTicker]
  | .tick o :: rest => tickEvents o ++ runTicker rest

/-- `true` iff no `outSend` occurs anywhere after a `closeOut` in the
trace. -/
def noSendAfterClose : List TickerEv → Bool
  | [] => true
  | .closeOut :: rest => !(rest.contains .outSend) && noSendAfterClose rest
  | _ :: rest => noSendAfterClose rest

/-! Generic list helpers used to trace the scanners through a
structured line. -/

theorem takeWhile_append_all {p : Char → Bool} {l1 l2 : List Char}
    (h : ∀ a ∈ l1, p a = true) :
    (l1 ++ l2).takeWhile p = l1 ++ l2.takeWhile p := by
  induction l1 with
  | nil => simp
  | cons a t ih =>
    have ha : p a = true := h a (by simp)
    simp only [List.cons_append, List.takeWhile_cons_of_pos ha, ih fun b hb => h b (by simp [hb])]

theorem takeWhile_nil_of_head {p : Char → Bool} {l : List Char}
    (h : ∀ a, l.head? = some a → p a = false) :
    l.takeWhile p = [] := by
  cases l with
  | nil => rfl
  | cons a t =>
    have hpa : ¬ p a = true := by simp [h a rfl]
    simp [List.takeWhile_cons_of_neg hpa]

theorem takeWhile_all {p : Char → Bool} {l : List Char}
    (h : ∀ a ∈ l, p a = true) :
    l.takeWhile p = l := by
  induction l with
  | nil => rfl
  | cons a t ih =>
    simp only [List.takeWhile_cons_of_pos (h a (by simp)), List.cons.injEq, true_and]
    exact ih fun b hb => h b (by simp [hb])

theorem dropWhile_append_all {p : Char → Bool} {l1 l2 : List Char}
    (h : ∀ a ∈ l1, p a = true) :
    (l1 ++ l2).dropWhile p = l2.dropWhile p := by
  induction l1 with
  | nil => simp
  | cons a t ih =>
    have ha : p a = true := h a (by simp)
    simp only [List.cons_append, List.dropWhile_cons_of_pos ha, ih fun b hb => h b (by simp [hb])]

theorem dropWhile_self_of_head {p : Char → Bool} {l : List Char}
    (h : ∀ a, l.head? = some a → p a = false) :
    l.dropWhile p = l := by
  cases l with
  | nil => rfl
  | cons a t =>
    have hpa : ¬ p a = true := by simp [h a rfl]
    simp [List.dropWhile_cons_of_neg hpa]

theorem noChar_iff {c : Char} {l : List Char} :
    noChar c l = true ↔ ∀ a ∈ l, a ≠ c := by
  induction l with
  | nil => simp [noChar]
  | cons a t ih => simp [noChar, ih, bne_iff_ne]

theorem suffix_drop {t a b : List Char} (h : t ++ a = b) : a = b.drop t.length := by
  rw [← h, List.drop_left]

theorem append_left_ne (tok l : List Char) (h : tok ≠ []) : tok ++ l ≠ l := by
  intro hc
  have := congrArg List.length hc
  simp only [List.length_append] at this
  exact h (List.length_eq_zero.mp (by omega))

theorem drop_colon_len (lab X : List Char) :
    (lab ++ ':' :: X).drop (lab.length + 1) = X := by
  have h : lab ++ ':' :: X = (lab ++ [':']) ++ X := by simp
  rw [h, show lab.length + 1 = (lab ++ [':']).length by simp, List.drop_left]

theorem isDigB_ne {c : Char} (h : isDigB c = true) :
    c ≠ ' ' ∧ c ≠ '\r' ∧ c ≠ '\n' ∧ c ≠ ':' := by
  refine ⟨?_, ?_, ?_, ?_⟩ <;> (rintro rfl; exact absurd h (by decide))

theorem idxOfNonSpace_shape (sp : Nat) (l : List Char)
    (h : ∀ a, l.head? = some a → a ≠ ' ') (hne : l ≠ []) :
    idxOfNonSpace (List.replicate sp ' ' ++ l) = some sp := by
  induction sp with
  | zero =>
    cases l with
    | nil => exact absurd rfl hne
    | cons a t => simp [idxOfNonSpace, h a rfl]
  | succ n ih => simp [List.replicate_succ, idxOfNonSpace, ih]

theorem dw_space_shape (sp : Nat) (ds junk tail : List Char)
    (hds : ∀ a ∈ ds, isDigB a = true)
    (hsp : ds = [] → headOk (fun c => c != ' ') junk = true) :
    (List.replicate sp ' ' ++ (ds ++ (junk ++ '\n' :: tail))).dropWhile (fun c => c == ' ')
      = ds ++ (junk ++ '\n' :: tail) := by
  rw [dropWhile_append_all fun a ha => by simp [List.eq_of_mem_replicate ha]]
  apply dropWhile_self_of_head
  intro a ha
  cases ds with
  | cons d dt =>
    simp only [List.cons_append, List.head?_cons, Option.some.injEq] at ha
    subst ha
    have := (isDigB_ne (hds d (by simp))).1
    simp [this]
  | nil =>
    cases junk with
    | cons j jt =>
      simp only [List.nil_append, List.cons_append, List.head?_cons, Option.some.injEq] at ha
      subst ha
      have := hsp rfl
      simp only [headOk, bne_iff_ne, ne_eq, decide_eq_true_eq] at this
      simp [this]
    | nil =>
      simp only [List.nil_append, List.head?_cons, Option.some.injEq] at ha
      subst ha
      decide

theorem tw_dig_shape (ds junk tail : List Char)
    (hds : ∀ a ∈ ds, isDigB a = true)
    (hj : headOk (fun c => !(isDigB c)) junk = true) :
    (ds ++ (junk ++ '\n' :: tail)).takeWhile isDigB = ds := by
  rw [takeWhile_append_all hds]
  rw [takeWhile_nil_of_head, List.append_nil]
  intro a ha
  cases junk with
  | cons j jt =>
    simp only [List.cons_append, List.head?_cons, Option.some.injEq] at ha
    subst ha
    simpa [headOk] using hj
  | nil =>
    simp only [List.nil_append, List.head?_cons, Option.some.injEq] at ha
    subst ha
    decide

theorem dw_newline_shape (junk tail : List Char) (hjn : ∀ a ∈ junk, a ≠ '\n') :
    (junk ++ '\n' :: tail).dropWhile (fun c => c != '\n') = '\n' :: tail := by
  rw [dropWhile_append_all fun a ha => by simp [hjn a ha]]
  exact List.dropWhile_cons_of_neg (by simp)

theorem getInfoScan_step (L : LineSpec) (hok : L.okB = true) (rest : List Char)
    (f : Info) (fuel : Nat) :
    getInfoScan (fuel + 1) (L.render ++ rest) f = getInfoScan fuel rest (lineStep f L) := by
  simp only [LineSpec.okB, Bool.and_eq_true] at hok
  obtain ⟨⟨⟨⟨h1, h2⟩, h3⟩, hd4⟩, h4⟩ := hok
  have hlab : ∀ a ∈ L.label, a ≠ ':' := noChar_iff.mp h1
  have hds : ∀ a ∈ L.ds, isDigB a = true := by
    intro a ha; exact List.all_eq_true.mp h2 a ha
  have hjn : ∀ a ∈ L.junk, a ≠ '\n' := noChar_iff.mp h4
  have hsp : L.ds = [] → headOk (fun c => c != ' ') L.junk = true := by
    intro hde
    simpa [hde] using hd4
  have hsh : L.render ++ rest =
      L.label ++ ':' :: (List.replicate L.sp ' ' ++ (L.ds ++ (L.junk ++ '\n' :: rest))) := by
    simp [LineSpec.render]
  rw [hsh]
  have hmem : (':' : Char) ∈
      L.label ++ ':' :: (List.replicate L.sp ' ' ++ (L.ds ++ (L.junk ++ '\n' :: rest))) := by
    simp
  simp only [getInfoScan]
  rw [if_pos hmem]
  have hkey : (L.label ++ ':' ::
        (List.replicate L.sp ' ' ++ (L.ds ++ (L.junk ++ '\n' :: rest)))).takeWhile
        (fun c => c != ':') = L.label := by
    rw [takeWhile_append_all fun a ha => by simp [hlab a ha]]
    rw [takeWhile_nil_of_head fun a ha => by simp at ha; subst ha; decide, List.append_nil]
  rw [hkey, List.drop_left]
  simp only [List.drop_succ_cons, List.drop_zero]
  have hTne : List.replicate L.sp ' ' ++ (L.ds ++ (L.junk ++ '\n' :: rest)) ≠ [] := by
    intro hc
    have := congrArg List.length hc
    simp at this
  rw [if_neg hTne]
  rw [dw_space_shape L.sp L.ds L.junk rest hds hsp]
  have hdne : L.ds ++ (L.junk ++ '\n' :: rest) ≠ [] := by simp
  rw [if_neg hdne]
  rw [tw_dig_shape L.ds L.junk rest hds h3, List.drop_left]
  rw [if_pos (show ('\n' : Char) ∈ L.junk ++ '\n' :: rest by simp)]
  rw [dw_newline_shape L.junk rest hjn]
  rfl

theorem getInfoScan_render (ls : List LineSpec) (h : ∀ L ∈ ls, L.okB = true) (f : Info) :
    getInfoScan (ls.length + 1) (renderAll ls) f = some (ls.foldl lineStep f) := by
  induction ls generalizing f with
  | nil => simp [renderAll, getInfoScan]
  | cons L t ih =>
    have hr : renderAll (L :: t) = L.render ++ renderAll t := by simp [renderAll]
    rw [hr]
    simp only [List.length_cons]
    rw [getInfoScan_step L (h L (by simp)) (renderAll t) f (t.length + 1)]
    rw [List.foldl_cons]
    exact ih (fun M hM => h M (by simp [hM])) (lineStep f L)

theorem applyInfo_unknown (f : Info) (name : List Char) (v : Int)
    (h : name ∉ knownLabels) : applyInfo f name v = f := by
  simp only [knownLabels, List.mem_cons, List.not_mem_nil, or_false, not_or] at h
  obtain ⟨e1, e2, e3, e4, e5, e6, e7, e8, e9, e10⟩ := h
  simp [applyInfo, e1, e2, e3, e4, e5, e6, e7, e8, e9, e10]

theorem infoField_memTotal (f : Info) : infoField memTotalL f = f.memTotal := rfl

theorem infoField_memFree (f : Info) : infoField memFreeL f = f.memFree := rfl

theorem infoField_memAvailable (f : Info) : infoField memAvailableL f = f.memAvailable := rfl

theorem infoField_buffers (f : Info) : infoField buffersL f = f.buffers := rfl

theorem infoField_cached (f : Info) : infoField cachedL f = f.cached := rfl

theorem infoField_swapCached (f : Info) : infoField swapCachedL f = f.swapCached := rfl

theorem infoField_active (f : Info) : infoField activeL f = f.active := rfl

theorem infoField_inactive (f : Info) : infoField inactiveL f = f.inactive := rfl

theorem infoField_swapTotal (f : Info) : infoField swapTotalL f = f.swapTotal := rfl

theorem infoField_swapFree (f : Info) : infoField swapFreeL f = f.swapFree := rfl

theorem infoField_zero (lab : List Char) (t : Int) : infoField lab (zeroInfo t) = 0 := by
  unfold infoField zeroInfo
  split_ifs <;> rfl

theorem applyInfo_memTotal_ne (f : Info) (name : List Char) (v : Int)
    (h : name ≠ memTotalL) : (applyInfo f name v).memTotal = f.memTotal := by
  unfold applyInfo; rw [if_neg h]; split_ifs <;> rfl

theorem applyInfo_memFree_ne (f : Info) (name : List Char) (v : Int)
    (h : name ≠ memFreeL) : (applyInfo f name v).memFree = f.memFree := by
  unfold applyInfo; rw [if_neg h]; split_ifs <;> rfl

theorem applyInfo_memAvailable_ne (f : Info) (name : List Char) (v : Int)
    (h : name ≠ memAvailableL) : (applyInfo f name v).memAvailable = f.memAvailable := by
  unfold applyInfo; rw [if_neg h]; split_ifs <;> rfl

theorem applyInfo_buffers_ne (f : Info) (name : List Char) (v : Int)
    (h : name ≠ buffersL) : (applyInfo f name v).buffers = f.buffers := by
  unfold applyInfo; rw [if_neg h]; split_ifs <;> rfl

theorem applyInfo_cached_ne (f : Info) (name : List Char) (v : Int)
    (h : name ≠ cachedL) : (applyInfo f name v).cached = f.cached := by
  unfold applyInfo; rw [if_neg h]; split_ifs <;> rfl

theorem applyInfo_swapCached_ne (f : Info) (name : List Char) (v : Int)
    (h : name ≠ swapCachedL) : (applyInfo f name v).swapCached = f.swapCached := by
  unfold applyInfo; rw [if_neg h]; split_ifs <;> rfl

theorem applyInfo_active_ne (f : Info) (name : List Char) (v : Int)
    (h : name ≠ activeL) : (applyInfo f name v).active = f.active := by
  unfold applyInfo; rw [if_neg h]; split_ifs <;> rfl

theorem applyInfo_inactive_ne (f : Info) (name : List Char) (v : Int)
    (h : name ≠ inactiveL) : (applyInfo f name v).inactive = f.inactive := by
  unfold applyInfo; rw [if_neg h]; split_ifs <;> rfl

theorem applyInfo_swapTotal_ne (f : Info) (name : List Char) (v : Int)
    (h : name ≠ swapTotalL) : (applyInfo f name v).swapTotal = f.swapTotal := by
  unfold applyInfo; rw [if_neg h]; split_ifs <;> rfl

theorem applyInfo_swapFree_ne (f : Info) (name : List Char) (v : Int)
    (h : name ≠ swapFreeL) : (applyInfo f name v).swapFree = f.swapFree := by
  unfold applyInfo; rw [if_neg h]; split_ifs <;> rfl

theorem infoField_applyInfo_ne (lab name : List Char) (f : Info) (v : Int)
    (hl : lab ∈ knownLabels) (hne : name ≠ lab) :
    infoField lab (applyInfo f name v) = infoField lab f := by
  simp only [knownLabels, List.mem_cons, List.not_mem_nil, or_false] at hl
  rcases hl with rfl | rfl | rfl | rfl | rfl | rfl | rfl | rfl | rfl | rfl
  · rw [infoField_memTotal, infoField_memTotal]; exact applyInfo_memTotal_ne f name v hne
  · rw [infoField_memFree, infoField_memFree]; exact applyInfo_memFree_ne f name v hne
  · rw [infoField_memAvailable, infoField_memAvailable]
    exact applyInfo_memAvailable_ne f name v hne
  · rw [infoField_buffers, infoField_buffers]; exact applyInfo_buffers_ne f name v hne
  · rw [infoField_cached, infoField_cached]; exact applyInfo_cached_ne f name v hne
  · rw [infoField_swapCached, infoField_swapCached]
    exact applyInfo_swapCached_ne f name v hne
  · rw [infoField_active, infoField_active]; exact applyInfo_active_ne f name v hne
  · rw [infoField_inactive, infoField_inactive]; exact applyInfo_inactive_ne f name v hne
  · rw [infoField_swapTotal, infoField_swapTotal]; exact applyInfo_swapTotal_ne f name v hne
  · rw [infoField_swapFree, infoField_swapFree]; exact applyInfo_swapFree_ne f name v hne

theorem getInfoScan_field_absent (fuel : Nat) :
    ∀ (buf : List Char) (f g : Info) (lab : List Char),
      getInfoScan fuel buf f = some g → lab ∈ knownLabels →
      lab ∉ getInfoNames fuel buf → infoField lab g = infoField lab f := by
  induction fuel with
  | zero =>
    intro buf f g lab hs hl hn
    exact absurd hs (by simp [getInfoScan])
  | succ n ih =>
    intro buf f g lab hs hl hn
    by_cases hm : (':' : Char) ∈ buf
    · simp only [getInfoScan, if_pos hm] at hs
      simp only [getInfoNames, if_pos hm, List.mem_cons, not_or] at hn
      rw [ih _ _ _ _ hs hl hn.2]
      exact infoField_applyInfo_ne lab _ f _ hl fun hc => hn.1 hc.symm
    · simp only [getInfoScan, if_neg hm, Option.some.injEq] at hs
      rw [hs]

/-- C5: parsing the buffer `"MemTotal:    16384000 kB\nMemFree:     512000
kB\nCached:      2048000 kB\n"` with the timestamp fixed at 1000 yields the
record `{Timestamp:1000, MemTotal:16384000, MemFree:512000, Cached:2048000,
all other fields:0}`, and its serialized form deserializes back to the same
record. -/
theorem getInfo_example_end_to_end :
    getInfoScan 5
        "MemTotal:    16384000 kB\nMemFree:     512000 kB\nCached:      2048000 kB\n".data
        (zeroInfo 1000) =
      some ⟨1000, 16384000, 512000, 0, 0, 2048000, 0, 0, 0, 0, 0⟩ ∧
    deserializeInfo (serializeInfo ⟨1000, 16384000, 512000, 0, 0, 2048000, 0, 0, 0, 0, 0⟩) =
      ⟨1000, 16384000, 512000, 0, 0, 2048000, 0, 0, 0, 0, 0⟩ := by
  exact ⟨by decide, by decide⟩

/-- C6: label matching in `GetInfo` is exact byte equality on the bytes
before the colon and unknown labels are ignored without error: the
`switch` leaves the record unchanged for any name outside the label table,
and inserting a well-formed line with an unrecognized label between other
lines yields the same record as the buffer with that line removed. -/
theorem getInfo_unknown_label_robust :
    (∀ (f : Info) (name : List Char) (v : Int),
        name ∉ knownLabels → applyInfo f name v = f) ∧
    ∀ (pre post : List LineSpec) (u : LineSpec) (f : Info),
      (∀ L ∈ pre, L.okB = true) → (∀ L ∈ post, L.okB = true) → u.okB = true →
      u.label ∉ knownLabels →
      getInfoScan (pre.length + post.length + 2) (renderAll (pre ++ [u] ++ post)) f =
        getInfoScan (pre.length + post.length + 1) (renderAll (pre ++ post)) f := by
  refine ⟨fun f name v h => applyInfo_unknown f name v h, ?_⟩
  intro pre post u f hpre hpost hu hun
  have hall1 : ∀ L ∈ pre ++ [u] ++ post, L.okB = true := by
    intro M hM
    simp only [List.mem_append, List.mem_singleton] at hM
    rcases hM with (hM | rfl) | hM
    · exact hpre M hM
    · exact hu
    · exact hpost M hM
  have hall2 : ∀ L ∈ pre ++ post, L.okB = true := by
    intro M hM
    rcases List.mem_append.mp hM with hM | hM
    · exact hpre M hM
    · exact hpost M hM
  have hl1 : pre.length + post.length + 2 = (pre ++ [u] ++ post).length + 1 := by
    simp [List.length_append]
    omega
  have hl2 : pre.length + post.length + 1 = (pre ++ post).length + 1 := by
    simp [List.length_append]
  rw [hl1, hl2, getInfoScan_render _ hall1 f, getInfoScan_render _ hall2 f]
  simp only [List.foldl_append, List.foldl_cons, List.foldl_nil]
  have hstep : lineStep (pre.foldl lineStep f) u = pre.foldl lineStep f :=
    applyInfo_unknown _ _ _ hun
  rw [hstep]

/-- Witness for C6 at a concrete instance: inserting the unknown-label
line `"Foo: 1 kB\n"` between a `MemTotal` line and a `MemFree` line does
not change the scanned record. -/
theorem getInfo_unknown_label_robust_witness :
    getInfoScan 4
        (renderAll [⟨memTotalL, 1, "5".data, " kB".data⟩,
          ⟨"Foo".data, 1, "1".data, " kB".data⟩,
          ⟨memFreeL, 1, "7".data, " kB".data⟩]) (zeroInfo 0) =
      getInfoScan 3
        (renderAll [⟨memTotalL, 1, "5".data, " kB".data⟩,
          ⟨memFreeL, 1, "7".data, " kB".data⟩]) (zeroInfo 0) :=
  getInfo_unknown_label_robust.2 [⟨memTotalL, 1, "5".data, " kB".data⟩]
    [⟨memFreeL, 1, "7".data, " kB".data⟩] ⟨"Foo".data, 1, "1".data, " kB".data⟩
    (zeroInfo 0) (by decide) (by decide) (by decide) (by decide)

/-- C7: if no `':'` is found in the remaining input, the `GetInfo` scan
terminates, emitting no line and raising no error (the result is `some`
of the record built so far); and every known label absent from the
scanned names leaves its field at zero when scanning starts from the
zero-initialised record. -/
theorem getInfo_no_colon_absent_zero :
    (∀ (buf : List Char) (f : Info) (fuel : Nat), (':' : Char) ∉ buf →
        getInfoScan (fuel + 1) buf f = some f ∧ getInfoNames (fuel + 1) buf = []) ∧
    ∀ (fuel : Nat) (buf : List Char) (t : Int) (g : Info) (lab : List Char),
      getInfoScan fuel buf (zeroInfo t) = some g → lab ∈ knownLabels →
      lab ∉ getInfoNames fuel buf → infoField lab g = 0 := by
  constructor
  · intro buf f fuel h
    exact ⟨by simp [getInfoScan, h], by simp [getInfoNames, h]⟩
  · intro fuel buf t g lab hs hl hn
    rw [getInfoScan_field_absent fuel buf (zeroInfo t) g lab hs hl hn]
    exact infoField_zero lab t

/-- Witness for C7: a colon-free buffer is scanned to completion with no
names emitted, and a buffer holding only a `MemFree` line leaves the
`MemTotal` field at zero. -/
theorem getInfo_no_colon_absent_zero_witness :
    getInfoScan 1 "abc".data (zeroInfo 5) = some (zeroInfo 5) ∧
    infoField memTotalL { zeroInfo 0 with memFree := 7 } = 0 :=
  ⟨(getInfo_no_colon_absent_zero.1 "abc".data (zeroInfo 5) 0 (by decide)).1,
   getInfo_no_colon_absent_zero.2 2 "MemFree: 7\n".data 0
     { zeroInfo 0 with memFree := 7 } memTotalL (by decide) (by decide) (by decide)⟩

theorem le8_fold (n : Nat) (hn : n < 2 ^ 64) :
    n % 256 + 256 * (n / 256 % 256 + 256 * (n / 256 ^ 2 % 256 + 256 * (n / 256 ^ 3 % 256 +
      256 * (n / 256 ^ 4 % 256 + 256 * (n / 256 ^ 5 % 256 + 256 * (n / 256 ^ 6 % 256 +
      256 * (n / 256 ^ 7 % 256 + 256 * 0))))))) = n := by
  norm_num
  omega

theorem fromLE8_toLE8 (x : Int) (h1 : -(2 ^ 63) ≤ x) (h2 : x < 2 ^ 63) :
    fromLE8 (toLE8 x) = x := by
  have hnn : (0 : Int) ≤ x % 2 ^ 64 := Int.emod_nonneg x (by norm_num)
  have hub : x % 2 ^ 64 < 2 ^ 64 := Int.emod_lt_of_pos x (by norm_num)
  have hxn : (((x % (2 ^ 64 : Int)).toNat : Int)) = x % 2 ^ 64 := Int.toNat_of_nonneg hnn
  simp only [toLE8, fromLE8, List.foldr_cons, List.foldr_nil]
  rw [le8_fold _ (by omega)]
  split
  · omega
  · omega

theorem toLE8_length (x : Int) : (toLE8 x).length = 8 := rfl

theorem take8_app (x : Int) (r : List Nat) : (toLE8 x ++ r).take 8 = toLE8 x := by
  have h := List.take_left (toLE8 x) r
  rwa [toLE8_length] at h

theorem drop8_app (x : Int) (r : List Nat) : (toLE8 x ++ r).drop 8 = r := by
  have h := List.drop_left (toLE8 x) r
  rwa [toLE8_length] at h

theorem take8_self (x : Int) : (toLE8 x).take 8 = toLE8 x := rfl

/-- C1: for every Info record whose fields fit a signed 64-bit integer
(as every record the Go code builds does), deserializing its serialized
form returns the record field for field. -/
theorem serializeInfo_roundtrip (i : Info) (h : InfoInRange i) :
    deserializeInfo (serializeInfo i) = i := by
  obtain ⟨ht, hmt, hmf, hma, hb, hc, hsc, hac, hin, hst, hsf⟩ := h
  simp only [serializeInfo, deserializeInfo, List.append_assoc]
  simp only [take8_app, drop8_app, take8_self]
  rw [fromLE8_toLE8 _ ht.1 ht.2, fromLE8_toLE8 _ hmt.1 hmt.2, fromLE8_toLE8 _ hmf.1 hmf.2,
    fromLE8_toLE8 _ hma.1 hma.2, fromLE8_toLE8 _ hb.1 hb.2, fromLE8_toLE8 _ hc.1 hc.2,
    fromLE8_toLE8 _ hsc.1 hsc.2, fromLE8_toLE8 _ hac.1 hac.2, fromLE8_toLE8 _ hin.1 hin.2,
    fromLE8_toLE8 _ hst.1 hst.2, fromLE8_toLE8 _ hsf.1 hsf.2]

/-- Witness for C1 at the all-zero record. -/
theorem serializeInfo_roundtrip_witness :
    InfoInRange (zeroInfo 0) ∧ deserializeInfo (serializeInfo (zeroInfo 0)) = zeroInfo 0 :=
  ⟨by unfold InfoInRange; decide,
   serializeInfo_roundtrip (zeroInfo 0) (by unfold InfoInRange; decide)⟩

/-- C2 counterexample: the one-shot switch of `GetInfo` and the ticker
`if` chain of `DataTicker` do not implement the same label-to-field
mapping — applied to a `"Cached"` name with value 7 they produce
different records. -/
theorem cached_mapping_counterexample :
    applyInfo (zeroInfo 0) cachedL 7 ≠ tickerApply (zeroInfo 0) cachedL 7 := by
  decide

/-- C2 amended: the two paths implement the same label-to-field mapping
for every label other than `"Cached"`; in the ticker path a `"Cached"`
line writes its parsed value to the MemAvailable field instead of the
Cached field.  Hence a single `"Cached"` update with a nonzero value
applied to the same record makes the two paths' results differ — in
particular they disagree on the one-line buffer `"Cached: 7 kB\n"` —
but later lines can overwrite the affected fields again, so on some
inputs containing a nonzero `"Cached"` line (e.g.
`"Cached: 7 kB\nCached: 0 kB\n"`) the two final records coincide. -/
theorem cached_mapping_amended :
    (∀ (f : Info) (name : List Char) (v : Int), name ≠ cachedL →
        applyInfo f name v = tickerApply f name v) ∧
    (∀ (f : Info) (v : Int), tickerApply f cachedL v = { f with memAvailable := v } ∧
        applyInfo f cachedL v = { f with cached := v }) ∧
    (∀ (t v : Int), v ≠ 0 →
        applyInfo (zeroInfo t) cachedL v ≠ tickerApply (zeroInfo t) cachedL v) ∧
    getInfoScan 2 "Cached: 7 kB\n".data (zeroInfo 0) =
        some { zeroInfo 0 with cached := 7 } ∧
    (tickerLoop 0 ["Cached: 7 kB\n".data] (initTick 0)).map TickSt.f =
        some { zeroInfo 0 with memAvailable := 7 } ∧
    getInfoScan 3 "Cached: 7 kB\nCached: 0 kB\n".data (zeroInfo 0) = some (zeroInfo 0) ∧
    (tickerLoop 0 ["Cached: 7 kB\n".data, "Cached: 0 kB\n".data] (initTick 0)).map TickSt.f =
        some (zeroInfo 0) := by
  refine ⟨?_, fun f v => ⟨rfl, rfl⟩, ?_, by decide, by decide, by decide, by decide⟩
  · intro f name v h
    unfold applyInfo tickerApply
    rw [if_neg h, if_neg h]
  · intro t v hv heq
    have hc := congrArg Info.cached heq
    rw [show (applyInfo (zeroInfo t) cachedL v).cached = v from rfl,
        show (tickerApply (zeroInfo t) cachedL v).cached = 0 from rfl] at hc
    exact hv hc

/-- Witness for the amended C2: the two mappings agree on a `MemTotal`
update and disagree on a `Cached` update with value 7. -/
theorem cached_mapping_amended_witness :
    applyInfo (zeroInfo 0) memTotalL 3 = tickerApply (zeroInfo 0) memTotalL 3 ∧
    applyInfo (zeroInfo 0) cachedL 7 ≠ tickerApply (zeroInfo 0) cachedL 7 :=
  ⟨cached_mapping_amended.1 (zeroInfo 0) memTotalL 3 (by decide),
   cached_mapping_amended.2.2.1 0 7 (by decide)⟩

/-- C3 evaluated at a failing input: in the ticker path, the line
`"MemTotal: bogus kB\n"` fails conversion (one error is sent, the record
keeps its defaults), but because `val` is not cleared the following line
`"MemFree: 5 kB\n"` is parsed under the corrupted name `"bogusMemFree"`
and MemFree silently stays 0 — the subsequent line is NOT mapped
correctly, contradicting the claim.  The one-shot scanner on the same
buffer maps MemFree to 5 as the spec describes. -/
theorem dataTicker_conv_error_corrupts_next_line :
    (tickerLoop 0 ["MemTotal: bogus kB\n".data, "MemFree: 5 kB\n".data]
        (initTick 0)).map (fun s => (s.f, s.errs)) = some (zeroInfo 0, 1) ∧
    getInfoScan 3 "MemTotal: bogus kB\nMemFree: 5 kB\n".data (zeroInfo 0) =
      some { zeroInfo 0 with memFree := 5 } := by
  exact ⟨by decide, by decide⟩

/-- C4 evaluated at a failing input: a sample of 17 lines whose 17th line
is `"MemTotal: 9 kB\n"`.  The ticker loop stops after 16 lines without
sending anything on the error channel (`errs = 0`): the cutoff is a
silent stop, and the MemTotal value of line 17 is dropped even though the
line parses to 9 on its own. -/
theorem dataTicker_cutoff_silent :
    (tickerLoop 0 (List.replicate 16 "Junk: 1 kB\n".data ++ ["MemTotal: 9 kB\n".data])
        (initTick 0)).map (fun s => (s.f.memTotal, s.errs)) = some (0, 0) ∧
    (processTickerLine (initTick 0) "MemTotal: 9 kB\n".data).map (fun s => s.f.memTotal) =
      some 9 := by
  exact ⟨by decide, by decide⟩

theorem tickerLoop_selFrom (ls : List (List Char)) :
    ∀ (l : Nat) (st : TickSt), l ≤ 16 →
      tickerLoop l ls st = tickerAll (selFrom l ls) st := by
  induction ls with
  | nil =>
    intro l st _
    simp [tickerLoop, selFrom, tickerAll]
  | cons line rest ih =>
    intro l st hl
    interval_cases l <;>
      cases hp : processTickerLine st line <;>
        simp [tickerLoop, tickerAll, selFrom, hp, ih]

/-- C10: a `DataTicker` tick parses at most the first 16 lines of the
sample and unconditionally skips lines 9 through 14: its line loop is
equal to processing exactly lines 1-8, 15 and 16, so the content of lines
9-14 and of every line after the 16th never contributes to the emitted
record. -/
theorem dataTicker_line_window (ls : List (List Char)) (st : TickSt) :
    tickerLoop 0 ls st = tickerAll (selectTicker ls) st := by
  have h := tickerLoop_selFrom ls 0 st (by norm_num)
  simpa [selFrom, selectTicker] using h

theorem tickerField_memTotal (f : Info) : tickerField memTotalL f = f.memTotal := rfl

theorem tickerField_memFree (f : Info) : tickerField memFreeL f = f.memFree := rfl

theorem tickerField_memAvailable (f : Info) :
    tickerField memAvailableL f = f.memAvailable := rfl

theorem tickerField_buffers (f : Info) : tickerField buffersL f = f.buffers := rfl

theorem tickerField_cached (f : Info) : tickerField cachedL f = f.memAvailable := rfl

theorem tickerField_swapCached (f : Info) : tickerField swapCachedL f = f.swapCached := rfl

theorem tickerField_active (f : Info) : tickerField activeL f = f.active := rfl

theorem tickerField_inactive (f : Info) : tickerField inactiveL f = f.inactive := rfl

theorem tickerField_swapTotal (f : Info) : tickerField swapTotalL f = f.swapTotal := rfl

theorem tickerField_swapFree (f : Info) : tickerField swapFreeL f = f.swapFree := rfl

theorem tickerApply_memTotal_ne (f : Info) (name : List Char) (v : Int)
    (h : name ≠ memTotalL) : (tickerApply f name v).memTotal = f.memTotal := by
  unfold tickerApply; rw [if_neg h]; split_ifs <;> rfl

theorem tickerApply_memFree_ne (f : Info) (name : List Char) (v : Int)
    (h : name ≠ memFreeL) : (tickerApply f name v).memFree = f.memFree := by
  unfold tickerApply; rw [if_neg h]; split_ifs <;> rfl

theorem tickerApply_memAvailable_ne (f : Info) (name : List Char) (v : Int)
    (h1 : name ≠ memAvailableL) (h2 : name ≠ cachedL) :
    (tickerApply f name v).memAvailable = f.memAvailable := by
  unfold tickerApply; rw [if_neg h1, if_neg h2]; split_ifs <;> rfl

theorem tickerApply_buffers_ne (f : Info) (name : List Char) (v : Int)
    (h : name ≠ buffersL) : (tickerApply f name v).buffers = f.buffers := by
  unfold tickerApply; rw [if_neg h]; split_ifs <;> rfl

theorem tickerApply_swapCached_ne (f : Info) (name : List Char) (v : Int)
    (h : name ≠ swapCachedL) : (tickerApply f name v).swapCached = f.swapCached := by
  unfold tickerApply; rw [if_neg h]; split_ifs <;> rfl

theorem tickerApply_active_ne (f : Info) (name : List Char) (v : Int)
    (h : name ≠ activeL) : (tickerApply f name v).active = f.active := by
  unfold tickerApply; rw [if_neg h]; split_ifs <;> rfl

theorem tickerApply_inactive_ne (f : Info) (name : List Char) (v : Int)
    (h : name ≠ inactiveL) : (tickerApply f name v).inactive = f.inactive := by
  unfold tickerApply; rw [if_neg h]; split_ifs <;> rfl

theorem tickerApply_swapTotal_ne (f : Info) (name : List Char) (v : Int)
    (h : name ≠ swapTotalL) : (tickerApply f name v).swapTotal = f.swapTotal := by
  unfold tickerApply; rw [if_neg h]; split_ifs <;> rfl

theorem tickerApply_swapFree_ne (f : Info) (name : List Char) (v : Int)
    (h : name ≠ swapFreeL) : (tickerApply f name v).swapFree = f.swapFree := by
  unfold tickerApply; rw [if_neg h]; split_ifs <;> rfl

theorem append_ne_of_len (tok a b : List Char) (h : tok.length + a.length ≠ b.length) :
    tok ++ a ≠ b := by
  intro hc
  have := congrArg List.length hc
  simp only [List.length_append] at this
  omega

theorem cached_not_stale_memAvailable (tok : List Char) : tok ++ cachedL ≠ memAvailableL := by
  intro h
  have hlen := congrArg List.length h
  simp only [List.length_append] at hlen
  rw [show cachedL.length = 6 from rfl, show memAvailableL.length = 12 from rfl] at hlen
  have h6 : tok.length = 6 := by omega
  have hd := suffix_drop h
  rw [h6] at hd
  exact absurd hd (by decide)

theorem tickerField_stale_prefix (tok lab : List Char) (f : Info) (v : Int)
    (htok : tok ≠ []) (hl : lab ∈ knownLabels) :
    tickerField lab (tickerApply f (tok ++ lab) v) = tickerField lab f := by
  simp only [knownLabels, List.mem_cons, List.not_mem_nil, or_false] at hl
  rcases hl with rfl | rfl | rfl | rfl | rfl | rfl | rfl | rfl | rfl | rfl
  · rw [tickerField_memTotal, tickerField_memTotal]
    exact tickerApply_memTotal_ne _ _ _ (append_left_ne tok memTotalL htok)
  · rw [tickerField_memFree, tickerField_memFree]
    exact tickerApply_memFree_ne _ _ _ (append_left_ne tok memFreeL htok)
  · rw [tickerField_memAvailable, tickerField_memAvailable]
    refine tickerApply_memAvailable_ne _ _ _ (append_left_ne tok memAvailableL htok) ?_
    refine append_ne_of_len tok memAvailableL cachedL ?_
    rw [show memAvailableL.length = 12 from rfl, show cachedL.length = 6 from rfl]
    omega
  · rw [tickerField_buffers, tickerField_buffers]
    exact tickerApply_buffers_ne _ _ _ (append_left_ne tok buffersL htok)
  · rw [tickerField_cached, tickerField_cached]
    exact tickerApply_memAvailable_ne _ _ _ (cached_not_stale_memAvailable tok)
      (append_left_ne tok cachedL htok)
  · rw [tickerField_swapCached, tickerField_swapCached]
    exact tickerApply_swapCached_ne _ _ _ (append_left_ne tok swapCachedL htok)
  · rw [tickerField_active, tickerField_active]
    exact tickerApply_active_ne _ _ _ (append_left_ne tok activeL htok)
  · rw [tickerField_inactive, tickerField_inactive]
    exact tickerApply_inactive_ne _ _ _ (append_left_ne tok inactiveL htok)
  · rw [tickerField_swapTotal, tickerField_swapTotal]
    exact tickerApply_swapTotal_ne _ _ _ (append_left_ne tok swapTotalL htok)
  · rw [tickerField_swapFree, tickerField_swapFree]
    exact tickerApply_swapFree_ne _ _ _ (append_left_ne tok swapFreeL htok)

theorem drop_colon_sp (lab : List Char) (sp : Nat) (Y : List Char) :
    (lab ++ ':' :: (List.replicate sp ' ' ++ Y)).drop (lab.length + 1 + sp) = Y := by
  have h1 : lab ++ ':' :: (List.replicate sp ' ' ++ Y)
      = (lab ++ [':'] ++ List.replicate sp ' ') ++ Y := by simp
  rw [h1, show lab.length + 1 + sp = (lab ++ [':'] ++ List.replicate sp ' ').length by
    simp; omega, List.drop_left]

theorem processTickerLine_fail (st : TickSt) (lab tok tail : List Char) (sp : Nat)
    (hlab : noChar ':' lab = true)
    (htokne : tok ≠ [])
    (htokc : ∀ c ∈ tok, c ≠ ' ' ∧ c ≠ '\r')
    (htail : tail.head? = some ' ')
    (hfail : atoi tok = none) :
    processTickerLine st (tickerLineOf lab sp tok tail) =
      some ⟨st.f, tok, lab.length + 1 + sp, st.errs + 1⟩ := by
  have hsh : tickerLineOf lab sp tok tail =
      lab ++ ':' :: (List.replicate sp ' ' ++ (tok ++ (tail ++ ['\n']))) := by
    simp [tickerLineOf]
  rw [hsh]
  have hmem : (':' : Char) ∈
      lab ++ ':' :: (List.replicate sp ' ' ++ (tok ++ (tail ++ ['\n']))) := by simp
  have hkey : (lab ++ ':' ::
        (List.replicate sp ' ' ++ (tok ++ (tail ++ ['\n'])))).takeWhile
        (fun c => c != ':') = lab := by
    rw [takeWhile_append_all fun a ha => by simp [noChar_iff.mp hlab a ha]]
    rw [takeWhile_nil_of_head fun a ha => by simp at ha; subst ha; decide, List.append_nil]
  simp only [processTickerLine]
  rw [if_pos hmem, hkey]
  have hgt : ¬ (lab.length + 1 >
      (lab ++ ':' :: (List.replicate sp ' ' ++ (tok ++ (tail ++ ['\n'])))).length) := by
    simp only [List.length_append, List.length_cons, List.length_replicate]
    omega
  rw [if_neg hgt]
  rw [drop_colon_len]
  have hidx : idxOfNonSpace (List.replicate sp ' ' ++ (tok ++ (tail ++ ['\n']))) = some sp := by
    apply idxOfNonSpace_shape
    · intro a ha
      cases tok with
      | nil => exact absurd rfl htokne
      | cons c t =>
        simp only [List.cons_append, List.head?_cons, Option.some.injEq] at ha
        subst ha
        exact (htokc c (by simp)).1
    · intro hc
      have := congrArg List.length hc
      simp at this
  rw [hidx]
  rw [drop_colon_sp]
  have htok : (tok ++ (tail ++ ['\n'])).takeWhile (fun c => c != ' ' && c != '\r') = tok := by
    rw [takeWhile_append_all fun a ha => by
      obtain ⟨hs, hr⟩ := htokc a ha
      simp [hs, hr]]
    rw [takeWhile_nil_of_head, List.append_nil]
    intro a ha
    cases tail with
    | nil => exact absurd htail (by simp)
    | cons b t =>
      simp only [List.head?_cons, Option.some.injEq] at htail
      subst htail
      simp only [List.cons_append, List.head?_cons, Option.some.injEq] at ha
      subst ha
      decide
  rw [htok, hfail]

theorem processTickerLine_colon (st : TickSt) (lab2 rest2 : List Char)
    (hlab : noChar ':' lab2 = true) :
    ∀ st2, processTickerLine st (lab2 ++ ':' :: rest2) = some st2 →
      (∃ v, st2.f = tickerApply st.f (st.val ++ lab2) v ∧ st2.errs = st.errs) ∨
        (st2.f = st.f ∧ st2.errs = st.errs + 1) := by
  intro st2 hst2
  have hmem : (':' : Char) ∈ lab2 ++ ':' :: rest2 := by simp
  have hkey : (lab2 ++ ':' :: rest2).takeWhile (fun c => c != ':') = lab2 := by
    rw [takeWhile_append_all fun a ha => by simp [noChar_iff.mp hlab a ha]]
    rw [takeWhile_nil_of_head fun a ha => by simp at ha; subst ha; decide, List.append_nil]
  have hgt : ¬ (lab2.length + 1 > (lab2 ++ ':' :: rest2).length) := by
    simp only [List.length_append, List.length_cons]
    omega
  simp only [processTickerLine, if_pos hmem, hkey, if_neg hgt] at hst2
  split at hst2
  · cases hst2
    right
    exact ⟨rfl, rfl⟩
  · cases hst2
    left
    exact ⟨_, rfl, rfl⟩

/-- C9 amended: in `DataTicker`, if the numeric conversion for line `n`
fails, the scratch buffer `val` is not cleared before the next line is
scanned — it is left holding the failed value token (one error is
counted, the record untouched) — so the label parsed for line `n+1` is
prefixed with the bytes of that token.  When the failed token is
nonempty, the prefixed name never equals line `n+1`'s own label, and line
`n+1`'s value is never stored in the field the ticker associates with its
label: it is dropped, unless the concatenation happens to equal a
different known label (e.g. `"Swap" ++ "Cached"`), in which case that
other field is written instead (see the C9 counterexample).  When the
failed token is empty (e.g. the value grab stops immediately at a
`'\r'`), `val` is left empty and line `n+1` is parsed under exactly its
own label, as normal. -/
theorem dataTicker_stale_val :
    (∀ (st : TickSt) (lab1 tok tail1 lab2 rest2 : List Char) (sp : Nat),
      noChar ':' lab1 = true → tok ≠ [] → (∀ c ∈ tok, c ≠ ' ' ∧ c ≠ '\r') →
      tail1.head? = some ' ' → atoi tok = none → noChar ':' lab2 = true →
      lab2 ∈ knownLabels →
      ∃ st1, processTickerLine st (tickerLineOf lab1 sp tok tail1) = some st1 ∧
        st1.val = tok ∧ st1.f = st.f ∧ st1.errs = st.errs + 1 ∧
        tickerKey st1.val (lab2 ++ ':' :: rest2) = tok ++ lab2 ∧
        ∀ st2, processTickerLine st1 (lab2 ++ ':' :: rest2) = some st2 →
          tickerField lab2 st2.f = tickerField lab2 st.f) ∧
    (∀ (st : TickSt) (lab2 rest2 : List Char), st.val = [] → noChar ':' lab2 = true →
      tickerKey st.val (lab2 ++ ':' :: rest2) = lab2) ∧
    (processTickerLine (initTick 0) "Foo: \r\n".data).map (fun s => (s.val, s.f, s.errs)) =
      some ([], zeroInfo 0, 1) := by
  refine ⟨?_, ?_, by decide⟩
  · intro st lab1 tok tail1 lab2 rest2 sp hlab1 htokne htokc htail hfail hlab2 hk
    refine ⟨⟨st.f, tok, lab1.length + 1 + sp, st.errs + 1⟩,
      processTickerLine_fail st lab1 tok tail1 sp hlab1 htokne htokc htail hfail,
      rfl, rfl, rfl, ?_, ?_⟩
    · unfold tickerKey
      congr 1
      rw [takeWhile_append_all fun a ha => by simp [noChar_iff.mp hlab2 a ha]]
      rw [takeWhile_nil_of_head fun a ha => by simp at ha; subst ha; decide, List.append_nil]
    · intro st2 hst2
      rcases processTickerLine_colon _ lab2 rest2 hlab2 st2 hst2 with ⟨v, hf, _⟩ | ⟨hf, _⟩
      · rw [hf]
        exact tickerField_stale_prefix tok lab2 st.f v htokne hk
      · rw [hf]
  · intro st lab2 rest2 h0 hlab2
    unfold tickerKey
    rw [h0, List.nil_append]
    rw [takeWhile_append_all fun a ha => by simp [noChar_iff.mp hlab2 a ha]]
    rw [takeWhile_nil_of_head fun a ha => by simp at ha; subst ha; decide, List.append_nil]

/-- Witness for the amended C9 at concrete instances: the line
`"A: Swap kB\n"` fails conversion leaving `val = "Swap"`, and the value
of the following `"Cached: 9 kB\n"` line is not stored in the slot the
ticker maps `"Cached"` to; while with an empty `val` a `"MemFree"` line
is parsed under exactly its own label. -/
theorem dataTicker_stale_val_witness :
    (∃ st1, processTickerLine (initTick 0) (tickerLineOf "A".data 1 "Swap".data " kB".data) =
        some st1 ∧
      st1.val = "Swap".data ∧ st1.f = (initTick 0).f ∧ st1.errs = (initTick 0).errs + 1 ∧
      tickerKey st1.val (cachedL ++ ':' :: " 9 kB\n".data) = "Swap".data ++ cachedL ∧
      ∀ st2, processTickerLine st1 (cachedL ++ ':' :: " 9 kB\n".data) = some st2 →
        tickerField cachedL st2.f = tickerField cachedL (initTick 0).f) ∧
    tickerKey (initTick 0).val (memFreeL ++ ':' :: " 5 kB\n".data) = memFreeL :=
  ⟨dataTicker_stale_val.1 (initTick 0) "A".data "Swap".data " kB".data cachedL
      " 9 kB\n".data 1 (by decide) (by decide) (by decide) (by decide) (by decide)
      (by decide) (by decide),
   dataTicker_stale_val.2.1 (initTick 0) memFreeL " 5 kB\n".data rfl (by decide)⟩

/-- C9 counterexample: two consequences asserted by the claim fail.
After `"A: Swap kB\n"` fails conversion, the following
`"Cached: 9 kB\n"` line is parsed under the name
`"Swap" ++ "Cached" = "SwapCached"` — a known label, refuting "matches no
known label" — so its value 9 is written into the SwapCached slot (while
MemAvailable, the slot the ticker maps `"Cached"` to, stays 0 and one
error is reported).  And after `"Foo: \r\n"` fails conversion on an
empty token, the following `"MemFree: 5 kB\n"` line is parsed under its
own label and its field is written to 5, refuting "line n+1's field is
silently left at its default". -/
theorem dataTicker_stale_val_counterexample :
    ((tickerLoop 0 ["A: Swap kB\n".data, "Cached: 9 kB\n".data] (initTick 0)).map
        (fun s => (s.f.swapCached, s.f.memAvailable, s.errs)) = some (9, 0, 1) ∧
      ("Swap".data ++ cachedL) ∈ knownLabels) ∧
    (tickerLoop 0 ["Foo: \r\n".data, "MemFree: 5 kB\n".data] (initTick 0)).map
        (fun s => (s.f.memFree, s.errs)) = some (5, 1) := by
  exact ⟨⟨by decide, by decide⟩, by decide⟩

theorem closeOut_not_mem_tickEvents (o : TickOutcome) :
    TickerEv.closeOut ∉ tickEvents o := by
  cases o <;> simp [tickEvents, List.mem_replicate]

theorem noSendAfterClose_append (l1 l2 : List TickerEv)
    (h2 : noSendAfterClose l2 = true) :
    TickerEv.closeOut ∉ l1 → noSendAfterClose (l1 ++ l2) = true := by
  induction l1 with
  | nil => intro _; simpa
  | cons a t ih =>
    intro h1
    have ha : a ≠ TickerEv.closeOut := fun hrf => h1 (by simp [hrf])
    have ht := ih fun hm => h1 (by simp [hm])
    cases a with
    | closeOut => exact absurd rfl ha
    | recvDone => simpa [noSendAfterClose] using ht
    | errSend => simpa [noSendAfterClose] using ht
    | outSend => simpa [noSendAfterClose] using ht
    | stopTicker => simpa [noSendAfterClose] using ht

/-- C8: under every schedule of `select` resolutions in which the `done`
channel fires, the `DataTicker` trace closes the output channel exactly
once, stops the ticker (both via the deferred calls run when the loop
returns), and no send on the output channel occurs after the close. -/
theorem dataTicker_cancel (cs : List TickChoice) (h : TickChoice.done ∈ cs) :
    (runTicker cs).count TickerEv.closeOut = 1 ∧
    TickerEv.stopTicker ∈ runTicker cs ∧
    noSendAfterClose (runTicker cs) = true := by
  induction cs with
  | nil => exact absurd h (by simp)
  | cons c rest ih =>
    cases c with
    | done =>
      have he : runTicker (TickChoice.done :: rest) =
          [TickerEv.recvDone, TickerEv.closeOut, TickerEv.stopTicker] := rfl
      exact ⟨by rw [he]; decide, by rw [he]; decide, by rw [he]; decide⟩
    | tick o =>
      have hr : TickChoice.done ∈ rest := by
        rcases List.mem_cons.mp h with hc | hr
        · exact absurd hc (by simp)
        · exact hr
      obtain ⟨ih1, ih2, ih3⟩ := ih hr
      refine ⟨?_, ?_, ?_⟩
      · rw [show runTicker (TickChoice.tick o :: rest) = tickEvents o ++ runTicker rest
            from rfl, List.count_append, ih1,
          List.count_eq_zero.mpr (closeOut_not_mem_tickEvents o)]
      · simp [runTicker, ih2]
      · exact noSendAfterClose_append _ _ ih3 (closeOut_not_mem_tickEvents o)

/-- Witness for C8 at a concrete schedule: one successful tick (with one
error send), then cancellation. -/
theorem dataTicker_cancel_witness :
    (runTicker [TickChoice.tick (TickOutcome.ok 1), TickChoice.done]).count
        TickerEv.closeOut = 1 ∧
    TickerEv.stopTicker ∈ runTicker [TickChoice.tick (TickOutcome.ok 1), TickChoice.done] ∧
    noSendAfterClose (runTicker [TickChoice.tick (TickOutcome.ok 1), TickChoice.done]) = true :=
  dataTicker_cancel _ (by decide)
